import Mathlib

/-!
# littlefs file-backed block device (`my_test/main.cpp`)

A shallow embedding of the block-device callbacks `lfs_filebd_read`,
`lfs_filebd_prog`, `lfs_filebd_erase`, `lfs_filebd_sync`, of the session class
`LfsTesetLib` (constructor, destructor, `mount`, `file_read`) and of the
`file_read` binding lambda, together with the properties checked about them.

The host operating system is modelled by `Host`: one backing file, the set of
descriptors open on it and a log of the system calls made.  The system calls
follow POSIX for a regular file on a Linux host that injects no I/O faults of
its own: a call fails only for a bad descriptor, a negative offset or length, or
a range beyond the largest file offset, and one `pread` or `pwrite` call
transfers at most `MAX_RW_COUNT` bytes.

C integers are `Nat`/`Int` with explicit reduction modulo `2^32` / `2^64`:
`lfs_size_t`, `lfs_off_t`, `lfs_block_t` are 32-bit unsigned, `size_t` is
64-bit unsigned, `off_t` and `ssize_t` are 64-bit signed (LP64).
-/

namespace LfsFilebd

/-! ## Machine integers and status codes -/

/-- Largest value of the signed 64-bit `off_t`. -/
def OFF_T_MAX : Int := 2 ^ 63 - 1

/-- Conversion of an integer to the signed 64-bit `off_t` (two's complement). -/
def to_off_t (x : Int) : Int := (x + 2 ^ 63) % 2 ^ 64 - 2 ^ 63

/-- Conversion of an integer to the unsigned 64-bit `size_t`. -/
def to_size_t (x : Int) : Nat := (x % 2 ^ 64).toNat

/-- Conversion of an integer to the unsigned 32-bit `lfs_size_t`. -/
def to_lfs_size_t (x : Nat) : Nat := x % 2 ^ 32

/-- Modelled from the spec: the status codes of `lfs.h`, which is not among the
sources; success is `0`. -/
def LFS_ERR_OK : Int := 0

/-- Modelled from the spec: the status codes of `lfs.h`, which is not among the
sources; the I/O failure is "a negative sentinel" (`-5` in littlefs). -/
def LFS_ERR_IO : Int := -5

/-! ## Host model -/

/-- Most bytes the host transfers in one `pread` or `pwrite` call: `INT_MAX`
rounded down to a whole 4096-byte page, 2147479552. -/
def MAX_RW_COUNT : Nat := 0x7ffff000

/-- One byte of the backing file. -/
abbrev Byte := Fin 256

/-- A system call made by the program, with its arguments and return value. -/
inductive Syscall where
  | open (ret : Int)
  | ftruncate (fd : Int) (length : Int) (ret : Int)
  | close (fd : Int) (ret : Int)
  | pread (fd : Int) (count : Nat) (pos : Int) (ret : Int)
  | pwrite (fd : Int) (count : Nat) (pos : Int) (ret : Int)
  | fsync (fd : Int) (ret : Int)
  deriving DecidableEq, Repr

/-- State of the host: the backing file at the session's path (`none` when it
does not exist), the descriptors currently open on it, and the log of system
calls made so far (oldest first). -/
structure Host where
  file : Option (List Byte)
  fds : List Int
  trace : List Syscall
  deriving DecidableEq, Repr

/-- Append one system call to the log. -/
def Host.log (h : Host) (e : Syscall) : Host :=
  { h with trace := h.trace ++ [e] }

/-- System calls logged between host state `h` and a later state `h2`. -/
def Host.since (h h2 : Host) : List Syscall :=
  h2.trace.drop h.trace.length

/-- Host `open(path, O_RDWR | O_CREAT, 0644)`.  `res` is the host's answer: a
negative value when it refuses, otherwise the descriptor it hands out, which
must not already be in use.  On success a missing file is created empty. -/
def sys_open (res : Int) (h : Host) : Int × Host :=
  if res < 0 ∨ res ∈ h.fds then
    (-1, h.log (.open (-1)))
  else
    (res, { h with file := some (h.file.getD []), fds := res :: h.fds }.log (.open res))

/-- Host `ftruncate(fd, length)`.  `ok` is the host's willingness to resize;
a bad descriptor or a negative length fails regardless.  On success the file
is cut or zero-extended to exactly `length` bytes. -/
def sys_ftruncate (ok : Bool) (h : Host) (fd : Int) (length : Int) : Int × Host :=
  match h.file with
  | some f =>
    if fd ∈ h.fds ∧ 0 ≤ length ∧ length ≤ OFF_T_MAX ∧ ok = true then
      let n := length.toNat
      (0, { h with file := some (f.take n ++ List.replicate (n - f.length) 0) }.log
            (.ftruncate fd length 0))
    else
      (-1, h.log (.ftruncate fd length (-1)))
  | none => (-1, h.log (.ftruncate fd length (-1)))

/-- Host `close(fd)`: releases an open descriptor, fails (`EBADF`) otherwise. -/
def sys_close (h : Host) (fd : Int) : Int × Host :=
  if fd ∈ h.fds then
    (0, { h with fds := h.fds.erase fd }.log (.close fd 0))
  else
    (-1, h.log (.close fd (-1)))

/-- Host `pread(fd, buf, count, pos)`: returns the number of bytes transferred
and those bytes (what is stored at the start of the caller's buffer).  A read
reaching the end of the file, or asking for more than `MAX_RW_COUNT` bytes, is
short. -/
def sys_pread (h : Host) (fd : Int) (count : Nat) (pos : Int) : Int × List Byte × Host :=
  match h.file with
  | some f =>
    if fd ∈ h.fds ∧ 0 ≤ pos ∧ pos + count ≤ OFF_T_MAX then
      let got := (f.drop pos.toNat).take (min count MAX_RW_COUNT)
      ((got.length : Int), got, h.log (.pread fd count pos got.length))
    else
      (-1, [], h.log (.pread fd count pos (-1)))
  | none => (-1, [], h.log (.pread fd count pos (-1)))

/-- Host `pwrite(fd, buf, count, pos)`: stores the first `count` bytes of `buf`,
at most `MAX_RW_COUNT` of them, at `pos`, zero-filling a gap between the old end
of file and `pos`; a write of zero bytes changes nothing.  Returns the number of
bytes written. -/
def sys_pwrite (h : Host) (fd : Int) (buf : List Byte) (count : Nat) (pos : Int) : Int × Host :=
  match h.file with
  | some f =>
    if fd ∈ h.fds ∧ 0 ≤ pos ∧ pos + count ≤ OFF_T_MAX then
      let data := buf.take (min count MAX_RW_COUNT)
      let p := pos.toNat
      if data.length = 0 then
        (0, h.log (.pwrite fd count pos 0))
      else
        let f2 := (f ++ List.replicate (p - f.length) 0).take p ++ data ++ f.drop (p + data.length)
        ((data.length : Int), { h with file := some f2 }.log (.pwrite fd count pos data.length))
    else
      (-1, h.log (.pwrite fd count pos (-1)))
  | none => (-1, h.log (.pwrite fd count pos (-1)))

/-- Host `fsync(fd)`: succeeds on an open descriptor; contents are unchanged. -/
def sys_fsync (h : Host) (fd : Int) : Int × Host :=
  if fd ∈ h.fds then (0, h.log (.fsync fd 0)) else (-1, h.log (.fsync fd (-1)))

/-! ## Configuration records -/

/-- Fields of `struct lfs_config` that the program reads or writes; the record
itself is declared in `lfs.h`.  The constructor zeroes every other field. -/
structure lfs_config where
  read_size : Nat
  prog_size : Nat
  block_size : Nat
  block_count : Nat
  block_cycles : Int
  cache_size : Nat
  lookahead_size : Nat
  inline_max : Nat
  deriving DecidableEq, Repr

/-- The all-zero configuration left by `memset(&cfg_, 0, sizeof(cfg_))`. -/
def lfs_config.zero : lfs_config :=
  { read_size := 0, prog_size := 0, block_size := 0, block_count := 0,
    block_cycles := 0, cache_size := 0, lookahead_size := 0, inline_max := 0 }

/-- The block-device context `lfs_filebd_config_t`. -/
structure lfs_filebd_config_t where
  path : String
  fd : Int
  deriving DecidableEq, Repr

/-! ## Block-device callbacks -/

/-- `lfs_filebd_read`: returns the status and the bytes `pread` stored in the
buffer. -/
def lfs_filebd_read (c : lfs_config) (bd : lfs_filebd_config_t)
    (block off size : Nat) (h : Host) : Int × List Byte × Host :=
  let pos := to_off_t ((block : Int) * c.block_size + off)
  let r := sys_pread h bd.fd size pos
  if r.1 ≠ (size : Int) then ( LFS_ERR_IO, r.2.1, r.2.2)
  else (LFS_ERR_OK, r.2.1, r.2.2)

/-- `lfs_filebd_prog`: writes the first `size` bytes of `buffer` at the block's
offset; no check of the previous contents. -/
def lfs_filebd_prog (c : lfs_config) (bd : lfs_filebd_config_t)
    (block off : Nat) (buffer : List Byte) (size : Nat) (h : Host) : Int × Host :=
  let pos := to_off_t ((block : Int) * c.block_size + off)
  let r := sys_pwrite h bd.fd buffer size pos
  if r.1 ≠ (size : Int) then ( LFS_ERR_IO, r.2)
  else (LFS_ERR_OK, r.2)

/-- The 512-byte scratch buffer `ff` after `memset(ff, 0xFF, sizeof(ff))`. -/
def ff : List Byte := List.replicate 512 0xFF

/-- The `while (remain)` loop of `lfs_filebd_erase`.  The first argument bounds
the number of loop tests; `none` means the bound was reached before the loop
ended. -/
def eraseLoop : Nat → Int → Nat → Int → Host → Option (Int × Host)
  | 0, _, _, _, _ => none
  | fuel + 1, fd, remain, pos, h =>
    if remain = 0 then some (LFS_ERR_OK, h)
    else
      let chunk := if remain < 512 then remain else 512
      let r := sys_pwrite h fd ff chunk pos
      if r.1 ≠ (chunk : Int) then some ( LFS_ERR_IO, r.2)
      else eraseLoop fuel fd (remain - chunk) (to_off_t (pos + chunk)) r.2

/-- `lfs_filebd_erase`: overwrite the block with `0xFF` in chunks of at most
512 bytes.  Every iteration removes at least one byte from `remain`, so
`block_size + 1` loop tests always suffice. -/
def lfs_filebd_erase (c : lfs_config) (bd : lfs_filebd_config_t)
    (block : Nat) (h : Host) : Option (Int × Host) :=
  let pos := to_off_t ((block : Int) * c.block_size)
  eraseLoop (c.block_size + 1) bd.fd c.block_size pos h

/-- `lfs_filebd_sync`. -/
def lfs_filebd_sync (_c : lfs_config) (bd : lfs_filebd_config_t) (h : Host) : Int × Host :=
  let r := sys_fsync h bd.fd
  if r.1 < 0 then ( LFS_ERR_IO, r.2) else (LFS_ERR_OK, r.2)

/-! ## The session class `LfsTesetLib` -/

/-- Data members `cfg_` and `bd_` of `LfsTesetLib`.  The member `lfs_` is part
of the engine state that the engine operations below transform. -/
structure LfsTesetLib where
  cfg_ : lfs_config
  bd_ : lfs_filebd_config_t
  deriving DecidableEq, Repr

/-- Constructor `LfsTesetLib(path, cfg)`.  `raw` is the indeterminate content of
the object's storage before construction; `openRes` and `truncOk` are the host's
answers to `open` and `ftruncate`.  The messages sent to `std::cout` are not
modelled. -/
def LfsTesetLib.ctor (raw : LfsTesetLib) (path : String) (cfg : lfs_config)
    (openRes : Int) (truncOk : Bool) (h : Host) : LfsTesetLib × Host :=
  let bd0 : lfs_filebd_config_t := { path := path, fd := 0 }
  let o := sys_open openRes h
  let bd1 : lfs_filebd_config_t := { bd0 with fd := o.1 }
  if o.1 < 0 then
    ({ raw with bd_ := bd1 }, o.2)
  else
    let c1 : lfs_config :=
      { lfs_config.zero with
        read_size := cfg.read_size, prog_size := cfg.prog_size,
        block_size := cfg.block_size, block_count := cfg.block_count }
    let c2 : lfs_config :=
      { c1 with
        cache_size := to_lfs_size_t (2 * c1.prog_size),
        lookahead_size := cfg.lookahead_size, block_cycles := cfg.block_cycles }
    let need := to_off_t ((c2.block_size : Int) * c2.block_count)
    let t := sys_ftruncate truncOk o.2 bd1.fd need
    if t.1 < 0 then
      let cl := sys_close t.2 bd1.fd
      ({ cfg_ := c2, bd_ := bd1 }, cl.2)
    else
      ({ cfg_ := c2, bd_ := bd1 }, t.2)

/-- Destructor `~LfsTesetLib()`. -/
def LfsTesetLib.dtor (self : LfsTesetLib) (h : Host) : Host :=
  if self.bd_.fd ≥ 0 then (sys_close h self.bd_.fd).2 else h

/-- The operations of the external filesystem engine that the session uses,
injected as functions over an engine state `σ` (the `lfs_t` instance together
with everything else the engine reads or changes).  Each returns its status
or result and the next state. -/
structure Engine (σ : Type) where
  lfs_mount : lfs_config → σ → Int × σ
  lfs_format : lfs_config → σ → Int × σ
  lfs_file_read : Nat → Nat → σ → Int × σ

/-- An engine operation invoked by the session, with the value it returned. -/
inductive EngineCall where
  | mount (ret : Int)
  | format (ret : Int)
  deriving DecidableEq, Repr

/-- `LfsTesetLib::mount()`: the returned status, the engine state afterwards and
the engine operations invoked, in order. -/
def LfsTesetLib.mount {σ : Type} (E : Engine σ) (self : LfsTesetLib) (s : σ) :
    Int × σ × List EngineCall :=
  let r1 := E.lfs_mount self.cfg_ s
  if r1.1 ≠ 0 then
    let rf := E.lfs_format self.cfg_ r1.2
    let r2 := E.lfs_mount self.cfg_ rf.2
    if r2.1 ≠ 0 then
      (1, r2.2, [.mount r1.1, .format rf.1, .mount r2.1])
    else
      (0, r2.2, [.mount r1.1, .format rf.1, .mount r2.1])
  else
    (0, r1.2, [.mount r1.1])

/-- `LfsTesetLib::file_read(file, buffer, size)`: forwards to the engine; `file`
stands for the caller's handle. -/
def LfsTesetLib.file_read {σ : Type} (E : Engine σ) (file : Nat) (size : Nat) (s : σ) :
    Int × σ :=
  E.lfs_file_read file size s

/-- What `buf.request()` reports about the caller's buffer. -/
structure buffer_info where
  ndim : Int
  itemsize : Int
  shape0 : Int
  deriving DecidableEq, Repr

/-- The `file_read` lambda of the module definition: throws for a buffer that is
not one-dimensional bytes, otherwise returns `written`, a `size_t`. -/
def file_read_binding {σ : Type} (E : Engine σ) (file : Nat) (info : buffer_info) (s : σ) :
    Except String (Nat × σ) :=
  if info.ndim ≠ 1 ∨ info.itemsize ≠ 1 then
    .error "read_data requires a 1‑D byte buffer"
  else
    let capacity := to_size_t info.shape0
    let r := LfsTesetLib.file_read E file (to_lfs_size_t capacity) s
    let written := to_size_t r.1
    .ok (written, r.2)

/-! ## Sequences of block-device operations -/

/-- One call of a block-device callback. -/
inductive BdOp where
  | read (block off size : Nat)
  | prog (block off : Nat) (buffer : List Byte) (size : Nat)
  | erase (block : Nat)
  | sync
  deriving DecidableEq, Repr

/-- Host state after one callback; `none` only if the erase loop bound were
exhausted. -/
def runOp (c : lfs_config) (bd : lfs_filebd_config_t) (h : Host) : BdOp → Option Host
  | .read block off size => some (lfs_filebd_read c bd block off size h).2.2
  | .prog block off buffer size => some (lfs_filebd_prog c bd block off buffer size h).2
  | .erase block => (lfs_filebd_erase c bd block h).map (fun r => r.2)
  | .sync => some (lfs_filebd_sync c bd h).2

/-- Host state after a sequence of callbacks, run in order. -/
def runOps (c : lfs_config) (bd : lfs_filebd_config_t) : Host → List BdOp → Option Host
  | h, [] => some h
  | h, op :: ops => (runOp c bd h op).bind (fun h2 => runOps c bd h2 ops)

/-- The arguments of a callback stay within the geometry. -/
def BdOp.InGeometry (c : lfs_config) : BdOp → Prop
  | .read block off size => block < c.block_count ∧ off + size ≤ c.block_size
  | .prog block off _ size => block < c.block_count ∧ off + size ≤ c.block_size
  | .erase block => block < c.block_count
  | .sync => True

instance (c : lfs_config) : (op : BdOp) → Decidable (op.InGeometry c)
  | .read _ _ _ => by unfold BdOp.InGeometry; exact inferInstance
  | .prog _ _ _ _ => by unfold BdOp.InGeometry; exact inferInstance
  | .erase _ => by unfold BdOp.InGeometry; exact inferInstance
  | .sync => by unfold BdOp.InGeometry; exact inferInstance

/-! ## Observations used in the statements -/

/-- The log consists of successful `pwrite` calls on `fd`, each of 1 to 512
bytes, the first at position `p` and each next one where the previous ended. -/
def ChunkedFrom (fd : Int) : Int → List Syscall → Prop
  | _, [] => True
  | p, .pwrite fd2 n q r :: rest =>
    fd2 = fd ∧ q = p ∧ 0 < n ∧ n ≤ 512 ∧ r = (n : Int) ∧ ChunkedFrom fd (p + n) rest
  | _, _ :: _ => False

/-- Total number of bytes requested by the `pwrite` calls of a log. -/
def bytesRequested : List Syscall → Nat
  | [] => 0
  | .pwrite _ n _ _ :: rest => n + bytesRequested rest
  | _ :: rest => bytesRequested rest

/-- Number of `close` calls made on descriptor `fd`. -/
def closeCount (fd : Int) : List Syscall → Nat
  | [] => 0
  | .close fd2 _ :: rest => (if fd2 = fd then 1 else 0) + closeCount fd rest
  | _ :: rest => closeCount fd rest

/-- Number of engine mount attempts in a call list. -/
def mountCount : List EngineCall → Nat
  | [] => 0
  | .mount _ :: rest => 1 + mountCount rest
  | .format _ :: rest => mountCount rest

/-- Number of engine format calls in a call list. -/
def formatCount : List EngineCall → Nat
  | [] => 0
  | .format _ :: rest => 1 + formatCount rest
  | .mount _ :: rest => formatCount rest

/-- Result of the last engine mount attempt in a call list, if any. -/
def lastMount : List EngineCall → Option Int
  | [] => none
  | .mount r :: rest => (lastMount rest).orElse (fun _ => some r)
  | .format _ :: rest => lastMount rest

/-- File `f` with the bytes from position `p` on replaced by `data`. -/
def overwrite (f : List Byte) (p : Nat) (data : List Byte) : List Byte :=
  f.take p ++ data ++ f.drop (p + data.length)

/-! ## Concrete inputs -/

/-- A two-block device of four-byte blocks holding the bytes 1..8, open on
descriptor 3. -/
def demoHost : Host :=
  { file := some [1, 2, 3, 4, 5, 6, 7, 8], fds := [3], trace := [] }

/-- Geometry of `demoHost`. -/
def demoCfg : lfs_config :=
  { lfs_config.zero with read_size := 1, prog_size := 1, block_size := 4, block_count := 2 }

/-- Context of `demoHost`. -/
def demoBd : lfs_filebd_config_t := { path := "flash.img", fd := 3 }

/-- The geometry the constructor stores once `open` has succeeded. -/
def ctorGeometry (cfg : lfs_config) : lfs_config :=
  { read_size := cfg.read_size, prog_size := cfg.prog_size, block_size := cfg.block_size,
    block_count := cfg.block_count, block_cycles := cfg.block_cycles,
    cache_size := to_lfs_size_t (2 * cfg.prog_size), lookahead_size := cfg.lookahead_size,
    inline_max := 0 }

/-- A host on which the backing file does not exist yet and nothing is open. -/
def freshHost : Host := { file := none, fds := [], trace := [] }

/-- Some content of the object's storage before construction. -/
def rawSession : LfsTesetLib :=
  { cfg_ := lfs_config.zero, bd_ := { path := "", fd := 0 } }

/-- The geometry of the specification's scenarios, with a caller-chosen
`cache_size` of 64. -/
def scenarioCfg : lfs_config :=
  { read_size := 16, prog_size := 16, block_size := 512, block_count := 256,
    block_cycles := 500, cache_size := 64, lookahead_size := 16, inline_max := 0 }

/-- An engine whose file read fails with the I/O error code. -/
def failingReadEngine : Engine Unit :=
  { lfs_mount := fun _ s => (0, s),
    lfs_format := fun _ s => (0, s),
    lfs_file_read := fun _ _ s => ( LFS_ERR_IO, s) }

/-- A one-block device of 520 bytes, all zero, open on descriptor 3: erasing
its block takes two chunks. -/
def wideHost : Host :=
  { file := some (List.replicate 520 0), fds := [3], trace := [] }

/-- Geometry of `wideHost`. -/
def wideCfg : lfs_config :=
  { lfs_config.zero with read_size := 1, prog_size := 1, block_size := 520, block_count := 1 }

/-- A device of `bc` blocks of `bs` bytes each. -/
def blockCfg (bs bc : Nat) : lfs_config :=
  { lfs_config.zero with read_size := 1, prog_size := 1, block_size := bs, block_count := bc }

/-- A host whose backing file holds `n` zero bytes, open on descriptor 3. -/
def zeroHost (n : Nat) : Host :=
  { file := some (List.replicate n 0), fds := [3], trace := [] }

/-- A host before construction: the given prior state of the backing file (`none`
when absent), nothing open. -/
def priorHost (file : Option (List Byte)) : Host :=
  { file := file, fds := [], trace := [] }

/-- A prior backing file longer than the geometry of `demoCfg` needs. -/
def staleHost : Host :=
  { file := some [7, 7, 7, 7, 7, 7, 7, 7, 7, 7, 7, 7], fds := [], trace := [] }

/-! ## Evaluation of the embedding on small inputs -/

theorem test_read_status : (lfs_filebd_read demoCfg demoBd 1 1 2 demoHost).1 = 0 := by decide
theorem test_read_bytes : (lfs_filebd_read demoCfg demoBd 1 1 2 demoHost).2.1 = [6, 7] := by decide
theorem test_read_past_end :
    (lfs_filebd_read demoCfg demoBd 1 3 2 demoHost).1 = LFS_ERR_IO := by decide
theorem test_erase : ((lfs_filebd_erase demoCfg demoBd 1 demoHost).map (fun r => (r.1, r.2.file)))
    = some (0, some [1, 2, 3, 4, 255, 255, 255, 255]) := by decide

/-! ## Machine-integer lemmas -/

theorem to_off_t_of_range (x : Int) (h0 : -(2 ^ 63) ≤ x) (h1 : x < 2 ^ 63) :
    to_off_t x = x := by
  unfold to_off_t
  omega

theorem to_off_t_lt (x : Int) : to_off_t x < 2 ^ 63 := by
  unfold to_off_t
  omega

theorem to_off_t_nat (n : Nat) (h : (n : Int) ≤ OFF_T_MAX) : to_off_t (n : Int) = (n : Int) := by
  unfold OFF_T_MAX at h
  apply to_off_t_of_range <;> omega

/-! ## List lemmas for `overwrite` -/

theorem overwrite_length (f : List Byte) (p : Nat) (data : List Byte)
    (h : p + data.length ≤ f.length) : (overwrite f p data).length = f.length := by
  simp [overwrite]
  omega

theorem overwrite_nil (f : List Byte) (p : Nat) : overwrite f p [] = f := by
  simp [overwrite]

theorem overwrite_overwrite (f : List Byte) (p : Nat) (a b : List Byte)
    (h : p ≤ f.length) :
    overwrite (overwrite f p a) (p + a.length) b = overwrite f p (a ++ b) := by
  have hp : (f.take p).length = p := by simp; omega
  have e1 : (f.take p ++ a ++ f.drop (p + a.length)).take (p + a.length) = f.take p ++ a := by
    rw [List.take_append_of_le_length (by simp; omega)]
    rw [List.take_of_length_le (by simp [hp])]
  have e2 : (f.take p ++ a ++ f.drop (p + a.length)).drop (p + a.length + b.length)
      = f.drop (p + (a ++ b).length) := by
    have : p + a.length + b.length = (f.take p ++ a).length + b.length := by simp; omega
    rw [this, List.drop_append, List.drop_drop]
    congr 1
    simp
    omega
  unfold overwrite
  rw [e1, e2]
  simp

theorem overwrite_getElem?_outside (f : List Byte) (p : Nat) (data : List Byte) (i : Nat)
    (h : p + data.length ≤ f.length) (hi : i < p ∨ p + data.length ≤ i) :
    (overwrite f p data)[i]? = f[i]? := by
  have hp : (f.take p).length = p := by simp; omega
  unfold overwrite
  rcases hi with hi | hi
  · rw [List.append_assoc, List.getElem?_append_left (by omega)]
    simp [List.getElem?_take, hi]
  · rw [List.getElem?_append_right (by simp; omega)]
    simp
    congr 1
    omega

theorem overwrite_slice (f : List Byte) (p : Nat) (data : List Byte) (h : p ≤ f.length) :
    ((overwrite f p data).drop p).take data.length = data := by
  have hp : (f.take p).length = p := by simp; omega
  unfold overwrite
  rw [List.append_assoc, List.drop_append_of_le_length (by omega), List.drop_of_length_le (by omega)]
  simp

/-! ## System calls and callbacks inside the file -/

theorem sys_pwrite_inside (h : Host) (f : List Byte) (fd : Int) (buf : List Byte) (n p : Nat)
    (hf : h.file = some f) (hfd : fd ∈ h.fds) (hn : 0 < n) (hbuf : n ≤ buf.length)
    (hcap : n ≤ MAX_RW_COUNT)
    (hin : p + n ≤ f.length) (hmax : (f.length : Int) ≤ OFF_T_MAX) :
    sys_pwrite h fd buf n (p : Int)
      = ((n : Int), { h with file := some (overwrite f p (buf.take n)) }.log
          (.pwrite fd n p n)) := by
  have hlen : (buf.take n).length = n := by simp; omega
  have hcond : fd ∈ h.fds ∧ (0 : Int) ≤ (p : Int) ∧ (p : Int) + (n : Int) ≤ OFF_T_MAX := by
    refine ⟨hfd, by omega, ?_⟩
    have : ((p + n : Nat) : Int) ≤ (f.length : Int) := by exact_mod_cast hin
    push_cast at this
    omega
  have hz : p - f.length = 0 := by omega
  unfold sys_pwrite
  rw [hf]
  simp only [Nat.min_eq_left hcap, hcond, and_self, if_true, hlen, Int.toNat_ofNat, hz,
    List.replicate_zero, List.append_nil, overwrite]
  rw [if_neg (by omega)]

theorem sys_pread_inside (h : Host) (f : List Byte) (fd : Int) (n p : Nat)
    (hf : h.file = some f) (hfd : fd ∈ h.fds) (hcap : n ≤ MAX_RW_COUNT)
    (hin : p + n ≤ f.length) (hmax : (f.length : Int) ≤ OFF_T_MAX) :
    sys_pread h fd n (p : Int)
      = ((n : Int), (f.drop p).take n, h.log (.pread fd n p n)) := by
  have hlen : ((f.drop p).take n).length = n := by simp; omega
  have hcond : fd ∈ h.fds ∧ (0 : Int) ≤ (p : Int) ∧ (p : Int) + (n : Int) ≤ OFF_T_MAX := by
    refine ⟨hfd, by omega, ?_⟩
    have : ((p + n : Nat) : Int) ≤ (f.length : Int) := by exact_mod_cast hin
    push_cast at this
    omega
  unfold sys_pread
  rw [hf]
  simp only [Nat.min_eq_left hcap, hcond, and_self, if_true, Int.toNat_ofNat, hlen]

theorem lfs_filebd_read_inside (c : lfs_config) (bd : lfs_filebd_config_t) (h : Host)
    (f : List Byte) (b o s : Nat)
    (hf : h.file = some f) (hfd : bd.fd ∈ h.fds) (hmax : (f.length : Int) ≤ OFF_T_MAX)
    (hcap : s ≤ MAX_RW_COUNT)
    (hin : b * c.block_size + o + s ≤ f.length) :
    lfs_filebd_read c bd b o s h
      = (LFS_ERR_OK, (f.drop (b * c.block_size + o)).take s,
          h.log (.pread bd.fd s ((b * c.block_size + o : Nat) : Int) s)) := by
  have hpos : to_off_t ((b : Int) * c.block_size + o) = ((b * c.block_size + o : Nat) : Int) := by
    have h1 : ((b * c.block_size + o : Nat) : Int) ≤ OFF_T_MAX := by
      have : ((b * c.block_size + o : Nat) : Int) ≤ (f.length : Int) := by
        exact_mod_cast (by omega : b * c.block_size + o ≤ f.length)
      omega
    rw [← to_off_t_nat _ h1]
    push_cast
    rfl
  unfold lfs_filebd_read
  simp only [hpos]
  rw [sys_pread_inside h f bd.fd s _ hf hfd hcap hin hmax]
  simp

theorem lfs_filebd_prog_inside (c : lfs_config) (bd : lfs_filebd_config_t) (h : Host)
    (f : List Byte) (b o : Nat) (D : List Byte) (s : Nat)
    (hf : h.file = some f) (hfd : bd.fd ∈ h.fds) (hmax : (f.length : Int) ≤ OFF_T_MAX)
    (hs : 0 < s) (hD : s ≤ D.length) (hcap : s ≤ MAX_RW_COUNT)
    (hin : b * c.block_size + o + s ≤ f.length) :
    lfs_filebd_prog c bd b o D s h
      = (LFS_ERR_OK,
          { h with file := some (overwrite f (b * c.block_size + o) (D.take s)) }.log
            (.pwrite bd.fd s ((b * c.block_size + o : Nat) : Int) s)) := by
  have hpos : to_off_t ((b : Int) * c.block_size + o) = ((b * c.block_size + o : Nat) : Int) := by
    have h1 : ((b * c.block_size + o : Nat) : Int) ≤ OFF_T_MAX := by
      have : ((b * c.block_size + o : Nat) : Int) ≤ (f.length : Int) := by
        exact_mod_cast (by omega : b * c.block_size + o ≤ f.length)
      omega
    rw [← to_off_t_nat _ h1]
    push_cast
    rfl
  unfold lfs_filebd_prog
  simp only [hpos]
  rw [sys_pwrite_inside h f bd.fd D s _ hf hfd hs hD hcap hin hmax]
  simp

theorem sys_pwrite_zero (h : Host) (f : List Byte) (fd : Int) (buf : List Byte) (p : Nat)
    (hf : h.file = some f) (hfd : fd ∈ h.fds) (hin : p ≤ f.length)
    (hmax : (f.length : Int) ≤ OFF_T_MAX) :
    sys_pwrite h fd buf 0 (p : Int) = (0, h.log (.pwrite fd 0 p 0)) := by
  have hcond : fd ∈ h.fds ∧ (0 : Int) ≤ (p : Int) ∧ (p : Int) + ((0 : Nat) : Int) ≤ OFF_T_MAX := by
    refine ⟨hfd, by omega, ?_⟩
    have : (p : Int) ≤ (f.length : Int) := by exact_mod_cast hin
    push_cast
    omega
  unfold sys_pwrite
  rw [hf]
  simp only [Nat.zero_min, hcond, and_self, if_true, List.take_zero, List.length_nil]

/-- Programming inside the file succeeds and replaces exactly the addressed
bytes; descriptors are untouched. -/
theorem lfs_filebd_prog_spec (c : lfs_config) (bd : lfs_filebd_config_t) (h : Host)
    (f : List Byte) (b o : Nat) (D : List Byte) (s : Nat)
    (hf : h.file = some f) (hfd : bd.fd ∈ h.fds) (hmax : (f.length : Int) ≤ OFF_T_MAX)
    (hD : s ≤ D.length) (hcap : s ≤ MAX_RW_COUNT)
    (hin : b * c.block_size + o + s ≤ f.length) :
    ∃ h2, lfs_filebd_prog c bd b o D s h = (LFS_ERR_OK, h2)
      ∧ h2.file = some (overwrite f (b * c.block_size + o) (D.take s))
      ∧ h2.fds = h.fds := by
  rcases Nat.eq_zero_or_pos s with hs | hs
  · subst hs
    have hpos : to_off_t ((b : Int) * c.block_size + o) = ((b * c.block_size + o : Nat) : Int) := by
      have h1 : ((b * c.block_size + o : Nat) : Int) ≤ OFF_T_MAX := by
        have : ((b * c.block_size + o : Nat) : Int) ≤ (f.length : Int) := by
          exact_mod_cast (by omega : b * c.block_size + o ≤ f.length)
        omega
      rw [← to_off_t_nat _ h1]
      push_cast
      rfl
    refine ⟨h.log (.pwrite bd.fd 0 ((b * c.block_size + o : Nat) : Int) 0), ?_, ?_, rfl⟩
    · unfold lfs_filebd_prog
      simp only [hpos]
      rw [sys_pwrite_zero h f bd.fd D _ hf hfd (by omega) hmax]
      simp
    · simp [Host.log, hf, overwrite_nil]
  · exact ⟨_, lfs_filebd_prog_inside c bd h f b o D s hf hfd hmax hs hD hcap hin, rfl, rfl⟩

/-! ## Requests above the transfer limit -/

theorem sys_pread_count_le (h : Host) (fd : Int) (n : Nat) (pos : Int) :
    (sys_pread h fd n pos).1 ≤ ((min n MAX_RW_COUNT : Nat) : Int) := by
  unfold sys_pread
  split
  · split_ifs
    · simp only [List.length_take]
      exact_mod_cast Nat.min_le_left _ _
    · simp only []
      omega
  · simp only []
    omega

theorem sys_pwrite_count_le (h : Host) (fd : Int) (buf : List Byte) (n : Nat) (pos : Int) :
    (sys_pwrite h fd buf n pos).1 ≤ ((min n MAX_RW_COUNT : Nat) : Int) := by
  have hd : ((buf.take (min n MAX_RW_COUNT)).length : Int) ≤ ((min n MAX_RW_COUNT : Nat) : Int) := by
    rw [List.length_take]
    exact_mod_cast Nat.min_le_left _ _
  unfold sys_pwrite
  split
  · simp only []
    split_ifs
    · show (0 : Int) ≤ _
      omega
    · exact hd
    · show (-1 : Int) ≤ _
      omega
  · show (-1 : Int) ≤ _
    omega

/-- A read of more than `MAX_RW_COUNT` bytes returns the I/O error, whatever the
host state: the single `pread` cannot transfer that much. -/
theorem lfs_filebd_read_over_cap (c : lfs_config) (bd : lfs_filebd_config_t)
    (b o s : Nat) (h : Host) (hs : MAX_RW_COUNT < s) :
    (lfs_filebd_read c bd b o s h).1 = LFS_ERR_IO := by
  have hle := sys_pread_count_le h bd.fd s (to_off_t ((b : Int) * c.block_size + o))
  have hne : (sys_pread h bd.fd s (to_off_t ((b : Int) * c.block_size + o))).1 ≠ (s : Int) := by
    have : ((min s MAX_RW_COUNT : Nat) : Int) < (s : Int) := by
      exact_mod_cast (by omega : min s MAX_RW_COUNT < s)
    omega
  unfold lfs_filebd_read
  simp only []
  rw [if_pos hne]

/-- A program of more than `MAX_RW_COUNT` bytes returns the I/O error, whatever
the host state: the single `pwrite` cannot transfer that much. -/
theorem lfs_filebd_prog_over_cap (c : lfs_config) (bd : lfs_filebd_config_t)
    (b o : Nat) (D : List Byte) (s : Nat) (h : Host) (hs : MAX_RW_COUNT < s) :
    (lfs_filebd_prog c bd b o D s h).1 = LFS_ERR_IO := by
  have hle := sys_pwrite_count_le h bd.fd D s (to_off_t ((b : Int) * c.block_size + o))
  have hne : (sys_pwrite h bd.fd D s (to_off_t ((b : Int) * c.block_size + o))).1
      ≠ (s : Int) := by
    have : ((min s MAX_RW_COUNT : Nat) : Int) < (s : Int) := by
      exact_mod_cast (by omega : min s MAX_RW_COUNT < s)
    omega
  unfold lfs_filebd_prog
  simp only []
  rw [if_pos hne]

/-! ## The erase loop -/

theorem ff_length : ff.length = 512 := by
  unfold ff
  rw [List.length_replicate]

theorem ff_take (n : Nat) (h : n ≤ 512) : ff.take n = List.replicate n 0xFF := by
  unfold ff
  rw [List.take_replicate, Nat.min_eq_left h]

/-- With enough loop tests, the erase loop started inside the file ends with
status 0, has replaced `remain` bytes from `p` on by `0xFF`, and has made only
`pwrite` calls of 1 to 512 bytes, contiguous from `p`, `remain` bytes in all. -/
theorem eraseLoop_inside (fd : Int) :
    ∀ (fuel remain p : Nat) (h : Host) (f : List Byte),
      h.file = some f → fd ∈ h.fds → remain < fuel → p + remain ≤ f.length →
      (f.length : Int) ≤ OFF_T_MAX →
      ∃ ws, eraseLoop fuel fd remain (p : Int) h
          = some (LFS_ERR_OK,
              { h with file := some (overwrite f p (List.replicate remain 0xFF)),
                       trace := h.trace ++ ws })
        ∧ ChunkedFrom fd (p : Int) ws ∧ bytesRequested ws = remain := by
  intro fuel
  induction fuel with
  | zero => intro remain p h f _ _ hlt; omega
  | succ fuel ih =>
    intro remain p h f hf hfd hlt hin hmax
    rcases Nat.eq_zero_or_pos remain with hr | hr
    · subst hr
      refine ⟨[], ?_, trivial, rfl⟩
      simp only [eraseLoop, if_true, List.replicate_zero, overwrite_nil, List.append_nil]
      rw [← hf]
    · have hchunk : ∀ chunk : Nat, chunk = (if remain < 512 then remain else 512) →
          ∃ ws, eraseLoop (fuel + 1) fd remain (p : Int) h
              = some (LFS_ERR_OK,
                  { h with file := some (overwrite f p (List.replicate remain 0xFF)),
                           trace := h.trace ++ ws })
            ∧ ChunkedFrom fd (p : Int) ws ∧ bytesRequested ws = remain := by
        intro chunk hc
        have hc0 : 0 < chunk := by split_ifs at hc <;> omega
        have hc1 : chunk ≤ 512 := by split_ifs at hc <;> omega
        have hc2 : chunk ≤ remain := by split_ifs at hc <;> omega
        have hw := sys_pwrite_inside h f fd ff chunk p hf hfd hc0
          (by rw [ff_length]; exact hc1) (by unfold MAX_RW_COUNT; omega) (by omega) hmax
        rw [ff_take chunk hc1] at hw
        have hnext : to_off_t ((p : Int) + (chunk : Int)) = ((p + chunk : Nat) : Int) := by
          have h1 : ((p + chunk : Nat) : Int) ≤ OFF_T_MAX := by
            have : ((p + chunk : Nat) : Int) ≤ (f.length : Int) := by
              exact_mod_cast (by omega : p + chunk ≤ f.length)
            omega
          rw [← to_off_t_nat _ h1]
          push_cast
          rfl
        have hlen1 : (overwrite f p (List.replicate chunk (0xFF : Byte))).length = f.length :=
          overwrite_length f p _ (by simp; omega)
        obtain ⟨ws, hrun, hch, hby⟩ :=
          ih (remain - chunk) (p + chunk)
            ({ h with file := some (overwrite f p (List.replicate chunk 0xFF)) }.log
              (.pwrite fd chunk p chunk))
            (overwrite f p (List.replicate chunk 0xFF)) rfl hfd (by omega)
            (by rw [hlen1]; omega) (by rw [hlen1]; exact hmax)
        refine ⟨.pwrite fd chunk p chunk :: ws, ?_, ?_, ?_⟩
        · rw [eraseLoop, if_neg (by omega), ← hc]
          simp only [hw, ne_eq, not_true_eq_false, if_false, hnext]
          rw [hrun]
          have hov : overwrite (overwrite f p (List.replicate chunk (0xFF : Byte))) (p + chunk)
              (List.replicate (remain - chunk) 0xFF)
              = overwrite f p (List.replicate remain 0xFF) := by
            have := overwrite_overwrite f p (List.replicate chunk (0xFF : Byte))
              (List.replicate (remain - chunk) 0xFF) (by omega)
            simp only [List.length_replicate] at this
            rw [this, List.append_replicate_replicate,
              show chunk + (remain - chunk) = remain by omega]
          rw [hov]
          simp only [Host.log, List.append_assoc, List.singleton_append]
        · exact ⟨rfl, rfl, hc0, hc1, rfl, by exact_mod_cast hch⟩
        · simp only [bytesRequested, hby]
          omega
      exact hchunk _ rfl

theorem block_inside (bs bc b : Nat) (hb : b < bc) : b * bs + bs ≤ bs * bc := by
  have h1 : (b + 1) * bs ≤ bc * bs := Nat.mul_le_mul_right bs hb
  have h2 : (b + 1) * bs = b * bs + bs := by ring
  have h3 : bc * bs = bs * bc := by ring
  omega

theorem since_append (h : Host) (f : Option (List Byte)) (ws : List Syscall) :
    h.since { h with file := f, trace := h.trace ++ ws } = ws := by
  simp [Host.since]

/-- Erasing a block that lies inside the file ends with status 0, replaces the
block by `0xFF` bytes and logs only chunked writes covering the block. -/
theorem lfs_filebd_erase_inside (c : lfs_config) (bd : lfs_filebd_config_t) (h : Host)
    (f : List Byte) (b : Nat)
    (hf : h.file = some f) (hfd : bd.fd ∈ h.fds) (hmax : (f.length : Int) ≤ OFF_T_MAX)
    (hin : b * c.block_size + c.block_size ≤ f.length) :
    ∃ ws, lfs_filebd_erase c bd b h
        = some (LFS_ERR_OK,
            { h with file := some (overwrite f (b * c.block_size)
                        (List.replicate c.block_size 0xFF)),
                     trace := h.trace ++ ws })
      ∧ ChunkedFrom bd.fd ((b * c.block_size : Nat) : Int) ws
      ∧ bytesRequested ws = c.block_size := by
  have hpos : to_off_t ((b : Int) * c.block_size) = ((b * c.block_size : Nat) : Int) := by
    have h1 : ((b * c.block_size : Nat) : Int) ≤ OFF_T_MAX := by
      have : ((b * c.block_size : Nat) : Int) ≤ (f.length : Int) := by
        exact_mod_cast (by omega : b * c.block_size ≤ f.length)
      omega
    rw [← to_off_t_nat _ h1]
    push_cast
    rfl
  unfold lfs_filebd_erase
  simp only [hpos]
  exact eraseLoop_inside bd.fd (c.block_size + 1) c.block_size (b * c.block_size) h f hf hfd
    (by omega) hin hmax

/-! ## Length of the file under any callback -/

theorem sys_pwrite_badfd (h : Host) (fd : Int) (buf : List Byte) (n : Nat) (pos : Int)
    (hfd : fd ∉ h.fds) : (sys_pwrite h fd buf n pos).1 = -1 := by
  unfold sys_pwrite
  cases h.file <;> simp [hfd]

theorem sys_pwrite_keeps_length (h : Host) (f : List Byte) (fd : Int) (buf : List Byte)
    (n p : Nat) (hf : h.file = some f) (hin : p + n ≤ f.length) :
    ∃ f2, (sys_pwrite h fd buf n (p : Int)).2.file = some f2 ∧ f2.length = f.length := by
  have hd : (buf.take (min n MAX_RW_COUNT)).length ≤ n := by
    rw [List.length_take]
    omega
  unfold sys_pwrite
  rw [hf]
  simp only [Int.toNat_ofNat]
  split_ifs
  · exact ⟨f, by simp [Host.log, hf], rfl⟩
  · refine ⟨_, rfl, ?_⟩
    simp only [List.length_append, List.length_take, List.length_replicate, List.length_drop]
    omega
  · exact ⟨f, by simp [Host.log, hf], rfl⟩

theorem sys_pread_file (h : Host) (fd : Int) (n : Nat) (pos : Int) :
    (sys_pread h fd n pos).2.2.file = h.file := by
  unfold sys_pread
  split
  · split_ifs <;> rfl
  · rfl

theorem sys_fsync_file (h : Host) (fd : Int) : (sys_fsync h fd).2.file = h.file := by
  unfold sys_fsync
  split_ifs <;> rfl

theorem lfs_filebd_read_file (c : lfs_config) (bd : lfs_filebd_config_t) (b o s : Nat)
    (h : Host) : (lfs_filebd_read c bd b o s h).2.2.file = h.file := by
  unfold lfs_filebd_read
  simp only []
  split_ifs <;> exact sys_pread_file _ _ _ _

theorem lfs_filebd_sync_file (c : lfs_config) (bd : lfs_filebd_config_t) (h : Host) :
    (lfs_filebd_sync c bd h).2.file = h.file := by
  unfold lfs_filebd_sync
  simp only []
  split_ifs <;> exact sys_fsync_file _ _

theorem lfs_filebd_prog_keeps_length (c : lfs_config) (bd : lfs_filebd_config_t) (h : Host)
    (f : List Byte) (b o : Nat) (D : List Byte) (s : Nat)
    (hf : h.file = some f) (hmax : (f.length : Int) ≤ OFF_T_MAX)
    (hin : b * c.block_size + o + s ≤ f.length) :
    ∃ f2, (lfs_filebd_prog c bd b o D s h).2.file = some f2 ∧ f2.length = f.length := by
  have hpos : to_off_t ((b : Int) * c.block_size + o) = ((b * c.block_size + o : Nat) : Int) := by
    have h1 : ((b * c.block_size + o : Nat) : Int) ≤ OFF_T_MAX := by
      have : ((b * c.block_size + o : Nat) : Int) ≤ (f.length : Int) := by
        exact_mod_cast (by omega : b * c.block_size + o ≤ f.length)
      omega
    rw [← to_off_t_nat _ h1]
    push_cast
    rfl
  unfold lfs_filebd_prog
  simp only [hpos]
  split_ifs <;> exact sys_pwrite_keeps_length h f bd.fd D s _ hf hin

/-- The erase loop started inside the file always ends within the bound on loop
tests and leaves the length of the file unchanged, whatever the descriptor. -/
theorem eraseLoop_keeps_length (fd : Int) :
    ∀ (fuel remain p : Nat) (h : Host) (f : List Byte),
      h.file = some f → remain < fuel → p + remain ≤ f.length →
      (f.length : Int) ≤ OFF_T_MAX →
      ∃ r f2, eraseLoop fuel fd remain (p : Int) h = some r
        ∧ r.2.file = some f2 ∧ f2.length = f.length := by
  intro fuel
  induction fuel with
  | zero => intro remain p h f _ hlt; omega
  | succ fuel ih =>
    intro remain p h f hf hlt hin hmax
    rcases Nat.eq_zero_or_pos remain with hr | hr
    · subst hr
      exact ⟨(LFS_ERR_OK, h), f, by simp [eraseLoop], hf, rfl⟩
    · have hchunk : ∀ chunk : Nat, chunk = (if remain < 512 then remain else 512) →
          ∃ r f2, eraseLoop (fuel + 1) fd remain (p : Int) h = some r
            ∧ r.2.file = some f2 ∧ f2.length = f.length := by
        intro chunk hc
        have hc0 : 0 < chunk := by split_ifs at hc <;> omega
        have hc2 : chunk ≤ remain := by split_ifs at hc <;> omega
        obtain ⟨f2, hf2, hl2⟩ :=
          sys_pwrite_keeps_length h f fd ff chunk p hf (by omega)
        have hnext : to_off_t ((p : Int) + (chunk : Int)) = ((p + chunk : Nat) : Int) := by
          have h1 : ((p + chunk : Nat) : Int) ≤ OFF_T_MAX := by
            have : ((p + chunk : Nat) : Int) ≤ (f.length : Int) := by
              exact_mod_cast (by omega : p + chunk ≤ f.length)
            omega
          rw [← to_off_t_nat _ h1]
          push_cast
          rfl
        rw [eraseLoop, if_neg (by omega), ← hc]
        simp only [hnext]
        split_ifs
        · exact ⟨_, f2, rfl, hf2, hl2⟩
        · obtain ⟨r, f3, hrun, hf3, hl3⟩ :=
            ih (remain - chunk) (p + chunk) _ f2 hf2 (by omega) (by omega)
              (by rw [hl2]; exact hmax)
          exact ⟨r, f3, hrun, hf3, by omega⟩
      exact hchunk _ rfl

theorem lfs_filebd_erase_keeps_length (c : lfs_config) (bd : lfs_filebd_config_t) (h : Host)
    (f : List Byte) (b : Nat)
    (hf : h.file = some f) (hmax : (f.length : Int) ≤ OFF_T_MAX)
    (hin : b * c.block_size + c.block_size ≤ f.length) :
    ∃ r f2, lfs_filebd_erase c bd b h = some r
      ∧ r.2.file = some f2 ∧ f2.length = f.length := by
  have hpos : to_off_t ((b : Int) * c.block_size) = ((b * c.block_size : Nat) : Int) := by
    have h1 : ((b * c.block_size : Nat) : Int) ≤ OFF_T_MAX := by
      have : ((b * c.block_size : Nat) : Int) ≤ (f.length : Int) := by
        exact_mod_cast (by omega : b * c.block_size ≤ f.length)
      omega
    rw [← to_off_t_nat _ h1]
    push_cast
    rfl
  unfold lfs_filebd_erase
  simp only [hpos]
  exact eraseLoop_keeps_length bd.fd (c.block_size + 1) c.block_size (b * c.block_size) h f hf
    (by omega) hin hmax

/-- One callback within the geometry returns and keeps the file length. -/
theorem runOp_keeps_length (c : lfs_config) (bd : lfs_filebd_config_t) (h : Host)
    (f : List Byte) (op : BdOp)
    (hf : h.file = some f) (hlen : f.length = c.block_size * c.block_count)
    (hmax : (f.length : Int) ≤ OFF_T_MAX) (hop : op.InGeometry c) :
    ∃ h2 f2, runOp c bd h op = some h2 ∧ h2.file = some f2 ∧ f2.length = f.length := by
  cases op with
  | read b o s =>
    exact ⟨_, f, rfl, by rw [lfs_filebd_read_file, hf], rfl⟩
  | prog b o D s =>
    obtain ⟨hb, ho⟩ := hop
    have hblk := block_inside c.block_size c.block_count b hb
    obtain ⟨f2, hf2, hl2⟩ :=
      lfs_filebd_prog_keeps_length c bd h f b o D s hf hmax (by omega)
    exact ⟨_, f2, rfl, hf2, hl2⟩
  | erase b =>
    have hb : b < c.block_count := hop
    have hblk := block_inside c.block_size c.block_count b hb
    obtain ⟨r, f2, hrun, hf2, hl2⟩ :=
      lfs_filebd_erase_keeps_length c bd h f b hf hmax (by omega)
    exact ⟨r.2, f2, by simp [runOp, hrun], hf2, hl2⟩
  | sync =>
    exact ⟨_, f, rfl, by rw [lfs_filebd_sync_file, hf], rfl⟩

/-! ## Claims about the block-device callbacks -/

/-- C1 as stated fails: on a one-block device with `block_size = 2^31` (a 32-bit
value) and a backing file of that size, with `b = 0`, `o = 0` and data of
`size = 2^31` bytes, erase returns 0 but the program that follows returns the
I/O error, since one `pwrite` writes at most `MAX_RW_COUNT` bytes. -/
theorem prog_read_round_trip_fails_above_limit :
    (List.replicate 2147483648 (0 : Byte)).length
        = (blockCfg 2147483648 1).block_size * (blockCfg 2147483648 1).block_count
      ∧ (blockCfg 2147483648 1).block_size < 2 ^ 32
      ∧ 0 < (blockCfg 2147483648 1).block_count
      ∧ 0 + 2147483648 ≤ (blockCfg 2147483648 1).block_size
      ∧ (∃ h1, lfs_filebd_erase (blockCfg 2147483648 1) demoBd 0 (zeroHost 2147483648)
            = some (LFS_ERR_OK, h1)
          ∧ (lfs_filebd_prog (blockCfg 2147483648 1) demoBd 0 0
              (List.replicate 2147483648 0) 2147483648 h1).1 = LFS_ERR_IO)
      ∧ LFS_ERR_IO ≠ LFS_ERR_OK := by
  refine ⟨by rw [List.length_replicate]; rfl, by decide, by decide, by decide, ?_, by decide⟩
  obtain ⟨ws, herase, -, -⟩ :=
    lfs_filebd_erase_inside (blockCfg 2147483648 1) demoBd (zeroHost 2147483648)
      (List.replicate 2147483648 0) 0 rfl (by decide)
      (by rw [List.length_replicate]; decide) (by rw [List.length_replicate]; decide)
  exact ⟨_, herase, lfs_filebd_prog_over_cap _ _ _ _ _ _ _ (by decide)⟩

/-- C1 amended: on a backing store of `block_size * block_count` bytes (open on
the context's descriptor, its size within `off_t` as every host file's is), for
a block `b < block_count` and data `D` of length `size` with
`o + size ≤ block_size` and `size ≤ MAX_RW_COUNT`, erase, then program, then
read all return status 0 and the read buffer is exactly `D`. -/
theorem prog_read_round_trip (c : lfs_config) (bd : lfs_filebd_config_t) (h : Host)
    (f : List Byte) (b o size : Nat) (D : List Byte)
    (hf : h.file = some f) (hfd : bd.fd ∈ h.fds)
    (hlen : f.length = c.block_size * c.block_count)
    (hmax : (f.length : Int) ≤ OFF_T_MAX)
    (hb : b < c.block_count) (hD : D.length = size) (ho : o + size ≤ c.block_size)
    (hcap : size ≤ MAX_RW_COUNT) :
    ∃ h1 h2 h3, lfs_filebd_erase c bd b h = some (LFS_ERR_OK, h1)
      ∧ lfs_filebd_prog c bd b o D size h1 = (LFS_ERR_OK, h2)
      ∧ lfs_filebd_read c bd b o size h2 = (LFS_ERR_OK, D, h3) := by
  have hblk := block_inside c.block_size c.block_count b hb
  obtain ⟨ws, herase, -, -⟩ :=
    lfs_filebd_erase_inside c bd h f b hf hfd hmax (by omega)
  have hl1 : (overwrite f (b * c.block_size) (List.replicate c.block_size (0xFF : Byte))).length
      = f.length := overwrite_length _ _ _ (by simp; omega)
  obtain ⟨h2, hprog, hf2, hfds2⟩ :=
    lfs_filebd_prog_spec c bd
      { h with file := some (overwrite f (b * c.block_size)
                (List.replicate c.block_size 0xFF)), trace := h.trace ++ ws }
      _ b o D size rfl hfd (by rw [hl1]; exact hmax) (by omega) hcap (by rw [hl1]; omega)
  have hDt : D.take size = D := List.take_of_length_le (by omega)
  rw [hDt] at hf2
  have hl2 : (overwrite (overwrite f (b * c.block_size)
      (List.replicate c.block_size (0xFF : Byte))) (b * c.block_size + o) D).length
      = f.length := by
    rw [overwrite_length _ _ _ (by rw [hl1]; omega), hl1]
  have hread := lfs_filebd_read_inside c bd h2 _ b o size hf2 (by rw [hfds2]; exact hfd)
    (by rw [hl2]; exact hmax) hcap (by rw [hl2]; omega)
  have hslice := overwrite_slice (overwrite f (b * c.block_size)
      (List.replicate c.block_size (0xFF : Byte))) (b * c.block_size + o) D
      (by rw [hl1]; omega)
  rw [hD] at hslice
  rw [hslice] at hread
  exact ⟨_, h2, _, herase, hprog, hread⟩

/-- C2 as stated fails: on a one-block device with `block_size = 2^31` and a
backing file of that size, erase of block 0 returns 0 but the following read of
the whole block returns the I/O error, since one `pread` transfers at most
`MAX_RW_COUNT` bytes. -/
theorem erase_then_read_fails_above_limit :
    (List.replicate 2147483648 (0 : Byte)).length
        = (blockCfg 2147483648 1).block_size * (blockCfg 2147483648 1).block_count
      ∧ (blockCfg 2147483648 1).block_size < 2 ^ 32
      ∧ 0 < (blockCfg 2147483648 1).block_count
      ∧ (∃ h1, lfs_filebd_erase (blockCfg 2147483648 1) demoBd 0 (zeroHost 2147483648)
            = some (LFS_ERR_OK, h1)
          ∧ (lfs_filebd_read (blockCfg 2147483648 1) demoBd 0 0
              (blockCfg 2147483648 1).block_size h1).1 = LFS_ERR_IO)
      ∧ LFS_ERR_IO ≠ LFS_ERR_OK := by
  refine ⟨by rw [List.length_replicate]; rfl, by decide, by decide, ?_, by decide⟩
  obtain ⟨ws, herase, -, -⟩ :=
    lfs_filebd_erase_inside (blockCfg 2147483648 1) demoBd (zeroHost 2147483648)
      (List.replicate 2147483648 0) 0 rfl (by decide)
      (by rw [List.length_replicate]; decide) (by rw [List.length_replicate]; decide)
  exact ⟨_, herase, lfs_filebd_read_over_cap _ _ _ _ _ _ (by decide)⟩

/-- C2 amended: on a backing store of `block_size * block_count` bytes (open on
the context's descriptor, its size within `off_t`), for every `block_size` and
every block `b < block_count`, erase ends with status 0 and leaves the bytes of
block `b` in the file all `0xFF`; when `block_size ≤ MAX_RW_COUNT` a following
read of the whole block returns status 0 and `block_size` bytes that are all
`0xFF`, and when `block_size` is larger that read returns the I/O error. -/
theorem erase_then_read_all_ff (c : lfs_config) (bd : lfs_filebd_config_t) (h : Host)
    (f : List Byte) (b : Nat)
    (hf : h.file = some f) (hfd : bd.fd ∈ h.fds)
    (hlen : f.length = c.block_size * c.block_count)
    (hmax : (f.length : Int) ≤ OFF_T_MAX) (hb : b < c.block_count) :
    ∃ h1 f1, lfs_filebd_erase c bd b h = some (LFS_ERR_OK, h1)
      ∧ h1.file = some f1
      ∧ (f1.drop (b * c.block_size)).take c.block_size = List.replicate c.block_size 0xFF
      ∧ (c.block_size ≤ MAX_RW_COUNT →
          ∃ h2, lfs_filebd_read c bd b 0 c.block_size h1
            = (LFS_ERR_OK, List.replicate c.block_size 0xFF, h2))
      ∧ (MAX_RW_COUNT < c.block_size →
          (lfs_filebd_read c bd b 0 c.block_size h1).1 = LFS_ERR_IO)
      ∧ (List.replicate c.block_size (0xFF : Byte)).length = c.block_size
      ∧ ∀ x ∈ List.replicate c.block_size (0xFF : Byte), x = 0xFF := by
  have hblk := block_inside c.block_size c.block_count b hb
  obtain ⟨ws, herase, -, -⟩ :=
    lfs_filebd_erase_inside c bd h f b hf hfd hmax (by omega)
  have hl1 : (overwrite f (b * c.block_size) (List.replicate c.block_size (0xFF : Byte))).length
      = f.length := overwrite_length _ _ _ (by simp; omega)
  have hslice := overwrite_slice f (b * c.block_size)
      (List.replicate c.block_size (0xFF : Byte)) (by omega)
  rw [List.length_replicate] at hslice
  refine ⟨_, _, herase, rfl, hslice, ?_, ?_, List.length_replicate _ _,
    fun x hx => List.eq_of_mem_replicate hx⟩
  · intro hcap
    have hread := lfs_filebd_read_inside c bd
      { h with file := some (overwrite f (b * c.block_size)
                  (List.replicate c.block_size 0xFF)), trace := h.trace ++ ws }
      _ b 0 c.block_size rfl hfd (by rw [hl1]; exact hmax) hcap (by rw [hl1]; omega)
    rw [Nat.add_zero, hslice] at hread
    exact ⟨_, hread⟩
  · intro hover
    exact lfs_filebd_read_over_cap _ _ _ _ _ _ hover

/-- C3 as stated fails: on a backing file of `2^31` bytes, a read of block 0,
offset 0 and `s = 2^31` bytes (32-bit values, the range inside the file)
returns the I/O error, since one `pread` transfers at most `MAX_RW_COUNT`
bytes. -/
theorem read_fails_above_limit :
    0 * (blockCfg 2147483648 1).block_size + 0 + 2147483648
        ≤ (List.replicate 2147483648 (0 : Byte)).length
      ∧ (zeroHost 2147483648).file = some (List.replicate 2147483648 0)
      ∧ (2147483648 : Nat) < 2 ^ 32
      ∧ (lfs_filebd_read (blockCfg 2147483648 1) demoBd 0 0 2147483648
          (zeroHost 2147483648)).1 = LFS_ERR_IO
      ∧ LFS_ERR_IO ≠ LFS_ERR_OK := by
  refine ⟨by rw [List.length_replicate]; decide, rfl, by decide, ?_, by decide⟩
  exact lfs_filebd_read_over_cap _ _ _ _ _ _ (by decide)

/-- C3 amended: when the range `[b * block_size + o, b * block_size + o + s)`
lies inside the backing file (open on the context's descriptor, its size within
`off_t`) and `s ≤ MAX_RW_COUNT`, read returns status 0 and its buffer is that
range of the file; its one system call is a `pread` at the exact integer
position `b * block_size + o`. -/
theorem read_offset_linear (c : lfs_config) (bd : lfs_filebd_config_t) (h : Host)
    (f : List Byte) (b o s : Nat)
    (hf : h.file = some f) (hfd : bd.fd ∈ h.fds) (hmax : (f.length : Int) ≤ OFF_T_MAX)
    (hin : b * c.block_size + o + s ≤ f.length) (hcap : s ≤ MAX_RW_COUNT) :
    ∃ buf h2, lfs_filebd_read c bd b o s h = (LFS_ERR_OK, buf, h2)
      ∧ buf = (f.drop (b * c.block_size + o)).take s
      ∧ buf.length = s
      ∧ (∀ i, i < s → buf[i]? = f[b * c.block_size + o + i]?)
      ∧ h.since h2 = [.pread bd.fd s ((b * c.block_size + o : Nat) : Int) s] := by
  refine ⟨_, _, lfs_filebd_read_inside c bd h f b o s hf hfd hmax hcap hin, rfl, ?_, ?_, ?_⟩
  · simp
    omega
  · intro i hi
    simp [List.getElem?_take, hi]
  · simp [Host.since, Host.log]

/-- C9: starting from a backing store of exactly `block_size * block_count`
bytes, every sequence of read, prog, erase and sync calls whose arguments stay
within the geometry runs to its end and leaves the backing store exactly
`block_size * block_count` bytes long. -/
theorem size_invariant (c : lfs_config) (bd : lfs_filebd_config_t) (ops : List BdOp) :
    ∀ (h : Host) (f : List Byte), h.file = some f →
      f.length = c.block_size * c.block_count → (f.length : Int) ≤ OFF_T_MAX →
      (∀ op ∈ ops, op.InGeometry c) →
      ∃ h2 f2, runOps c bd h ops = some h2 ∧ h2.file = some f2
        ∧ f2.length = c.block_size * c.block_count := by
  induction ops with
  | nil =>
    intro h f hf hlen _ _
    exact ⟨h, f, rfl, hf, hlen⟩
  | cons op ops ih =>
    intro h f hf hlen hmax hops
    obtain ⟨h1, f1, hrun, hf1, hl1⟩ :=
      runOp_keeps_length c bd h f op hf hlen hmax (hops op (List.mem_cons_self _ _))
    obtain ⟨h2, f2, hrest, hf2, hl2⟩ :=
      ih h1 f1 hf1 (by omega) (by rw [hl1]; exact hmax)
        (fun o ho => hops o (List.mem_cons_of_mem _ ho))
    exact ⟨h2, f2, by simp [runOps, hrun, hrest], hf2, hl2⟩

/-- C10: a successful erase of block `b < block_count` on a backing store of
`block_size * block_count` bytes issues only writes of 1 to 512 bytes,
contiguous from `b * block_size` and `block_size` bytes in total, and every
byte of the file outside `[b * block_size, (b + 1) * block_size)` is unchanged. -/
theorem erase_touches_only_its_block (c : lfs_config) (bd : lfs_filebd_config_t)
    (h h1 : Host) (f : List Byte) (b : Nat)
    (hf : h.file = some f) (hlen : f.length = c.block_size * c.block_count)
    (hmax : (f.length : Int) ≤ OFF_T_MAX) (hb : b < c.block_count)
    (hok : lfs_filebd_erase c bd b h = some (LFS_ERR_OK, h1)) :
    ChunkedFrom bd.fd ((b * c.block_size : Nat) : Int) (h.since h1)
      ∧ bytesRequested (h.since h1) = c.block_size
      ∧ ∃ f1, h1.file = some f1 ∧ f1.length = f.length
          ∧ ∀ i, (i < b * c.block_size ∨ (b + 1) * c.block_size ≤ i) → f1[i]? = f[i]? := by
  have hblk := block_inside c.block_size c.block_count b hb
  by_cases hfd : bd.fd ∈ h.fds
  · obtain ⟨ws, herase, hch, hby⟩ :=
      lfs_filebd_erase_inside c bd h f b hf hfd hmax (by omega)
    rw [herase] at hok
    have hh : h1 = { h with file := some (overwrite f (b * c.block_size)
        (List.replicate c.block_size 0xFF)), trace := h.trace ++ ws } := by
      have := Option.some.inj hok
      exact (congrArg Prod.snd this).symm
    subst hh
    rw [since_append]
    refine ⟨hch, hby, _, rfl, overwrite_length _ _ _ (by simp; omega), ?_⟩
    intro i hi
    apply overwrite_getElem?_outside _ _ _ _ (by simp; omega)
    rw [List.length_replicate]
    rcases hi with hi | hi
    · exact Or.inl hi
    · right
      have : (b + 1) * c.block_size = b * c.block_size + c.block_size := by ring
      omega
  · rcases Nat.eq_zero_or_pos c.block_size with hz | hpos
    · have hrun : lfs_filebd_erase c bd b h = some (LFS_ERR_OK, h) := by
        unfold lfs_filebd_erase
        simp [hz, eraseLoop]
      rw [hrun] at hok
      have hh : h1 = h := (congrArg Prod.snd (Option.some.inj hok)).symm
      subst hh
      refine ⟨?_, ?_, f, hf, rfl, fun _ _ => rfl⟩
      · simp [Host.since, ChunkedFrom]
      · simp [Host.since, bytesRequested, hz]
    · exfalso
      have hbad := sys_pwrite_badfd h bd.fd ff
        (if c.block_size < 512 then c.block_size else 512)
        (to_off_t ((b : Int) * c.block_size)) hfd
      have hne : ((-1 : Int) ≠ ((if c.block_size < 512 then c.block_size else 512 : Nat) : Int)) := by
        omega
      unfold lfs_filebd_erase at hok
      rw [eraseLoop, if_neg (by omega)] at hok
      simp only [hbad, ne_eq, hne, not_false_eq_true, if_true] at hok
      have := congrArg Prod.fst (Option.some.inj hok)
      simp [ LFS_ERR_IO, LFS_ERR_OK] at this

/-! ## The constructor -/

theorem to_off_t_exact_of_nonneg (x : Int) (h0 : 0 ≤ x) (h1 : x < 2 ^ 64)
    (h2 : 0 ≤ to_off_t x) : to_off_t x = x := by
  unfold to_off_t at *
  omega

/-- The three ways the constructor can run: `open` fails; `open` succeeds and
`ftruncate` fails (the descriptor is closed again); both succeed. -/
theorem ctor_cases (raw : LfsTesetLib) (path : String) (cfg : lfs_config)
    (openRes : Int) (truncOk : Bool) (h : Host) :
    (LfsTesetLib.ctor raw path cfg openRes truncOk h
        = ({ raw with bd_ := { path := path, fd := -1 } }, h.log (.open (-1))))
    ∨ (∃ need, 0 ≤ openRes ∧
        LfsTesetLib.ctor raw path cfg openRes truncOk h
          = ({ cfg_ := ctorGeometry cfg, bd_ := { path := path, fd := openRes } },
             { file := some (h.file.getD []), fds := h.fds,
               trace := h.trace ++ [.open openRes, .ftruncate openRes need (-1),
                                    .close openRes 0] }))
    ∨ (0 ≤ openRes ∧
        (0 : Int) ≤ to_off_t ((cfg.block_size : Int) * cfg.block_count) ∧
        LfsTesetLib.ctor raw path cfg openRes truncOk h
          = ({ cfg_ := ctorGeometry cfg, bd_ := { path := path, fd := openRes } },
             { file := some ((h.file.getD []).take
                          (to_off_t ((cfg.block_size : Int) * cfg.block_count)).toNat
                        ++ List.replicate
                          ((to_off_t ((cfg.block_size : Int) * cfg.block_count)).toNat
                            - (h.file.getD []).length) 0),
               fds := openRes :: h.fds,
               trace := h.trace ++ [.open openRes,
                 .ftruncate openRes (to_off_t ((cfg.block_size : Int) * cfg.block_count)) 0] })) := by
  by_cases ho : openRes < 0 ∨ openRes ∈ h.fds
  · left
    have hopen : sys_open openRes h = (-1, h.log (.open (-1))) := by
      unfold sys_open
      rw [if_pos ho]
    unfold LfsTesetLib.ctor
    simp only [hopen]
    rw [if_pos (by decide)]
  · right
    have ho1 : ¬ openRes < 0 := fun h1 => ho (Or.inl h1)
    have ho2 : openRes ∉ h.fds := fun h1 => ho (Or.inr h1)
    have hopen : sys_open openRes h
        = (openRes, { file := some (h.file.getD []), fds := openRes :: h.fds,
                      trace := h.trace ++ [.open openRes] }) := by
      unfold sys_open
      rw [if_neg ho]
      rfl
    by_cases ht : (0 : Int) ≤ to_off_t ((cfg.block_size : Int) * cfg.block_count)
        ∧ to_off_t ((cfg.block_size : Int) * cfg.block_count) ≤ OFF_T_MAX ∧ truncOk = true
    · right
      refine ⟨by omega, ht.1, ?_⟩
      unfold LfsTesetLib.ctor
      simp only [hopen]
      rw [if_neg ho1]
      simp [sys_ftruncate, Host.log, ht, ctorGeometry, lfs_config.zero]
    · left
      refine ⟨to_off_t ((cfg.block_size : Int) * cfg.block_count), by omega, ?_⟩
      unfold LfsTesetLib.ctor
      simp only [hopen]
      rw [if_neg ho1]
      simp [sys_ftruncate, Host.log, ht, ctorGeometry, lfs_config.zero, sys_close]

/-- When the host hands out a fresh descriptor, allows the resize, and the
product `block_size * block_count` fits `off_t`, the constructor opens the file
and resizes it to exactly that product. -/
theorem ctor_success (raw : LfsTesetLib) (path : String) (cfg : lfs_config)
    (openRes : Int) (truncOk : Bool) (h : Host)
    (hopen : 0 ≤ openRes) (hfresh : openRes ∉ h.fds) (htrunc : truncOk = true)
    (hprod : ((cfg.block_size * cfg.block_count : Nat) : Int) ≤ OFF_T_MAX) :
    LfsTesetLib.ctor raw path cfg openRes truncOk h
      = ({ cfg_ := ctorGeometry cfg, bd_ := { path := path, fd := openRes } },
         { file := some ((h.file.getD []).take (cfg.block_size * cfg.block_count)
                    ++ List.replicate
                      (cfg.block_size * cfg.block_count - (h.file.getD []).length) 0),
           fds := openRes :: h.fds,
           trace := h.trace ++ [.open openRes,
             .ftruncate openRes ((cfg.block_size * cfg.block_count : Nat) : Int) 0] }) := by
  have ho : ¬ (openRes < 0 ∨ openRes ∈ h.fds) := by
    intro hc
    rcases hc with hc | hc
    · omega
    · exact hfresh hc
  have ho1 : ¬ openRes < 0 := by omega
  have hsys : sys_open openRes h
      = (openRes, { file := some (h.file.getD []), fds := openRes :: h.fds,
                    trace := h.trace ++ [.open openRes] }) := by
    unfold sys_open
    rw [if_neg ho]
    rfl
  have hneed : to_off_t ((cfg.block_size : Int) * cfg.block_count)
      = ((cfg.block_size * cfg.block_count : Nat) : Int) := by
    rw [← to_off_t_nat _ hprod]
    push_cast
    rfl
  have hcast : ((cfg.block_size * cfg.block_count : Nat) : Int)
      = (cfg.block_size : Int) * cfg.block_count := by push_cast; rfl
  have hnn : (0 : Int) ≤ (cfg.block_size : Int) * cfg.block_count := by
    rw [← hcast]
    exact Int.ofNat_nonneg _
  have hle : (cfg.block_size : Int) * cfg.block_count ≤ OFF_T_MAX := by
    rw [← hcast]
    exact hprod
  have htn : ((cfg.block_size : Int) * cfg.block_count).toNat
      = cfg.block_size * cfg.block_count := by
    rw [← hcast, Int.toNat_ofNat]
  unfold LfsTesetLib.ctor
  simp only [hsys]
  rw [if_neg ho1]
  simp only [ctorGeometry, lfs_config.zero, hneed]
  simp [sys_ftruncate, Host.log, htrunc, hnn, hle, htn]

/-- A construction whose `ftruncate` succeeded leaves what the callbacks rely
on: the stored descriptor is open, the stored geometry is the caller's, and the
file has `block_size * block_count` bytes, a size within `off_t`. -/
theorem ctor_establishes_store (raw : LfsTesetLib) (path : String) (cfg : lfs_config)
    (openRes : Int) (truncOk : Bool) (h : Host) (fd len : Int)
    (hbs : cfg.block_size < 2 ^ 32) (hbc : cfg.block_count < 2 ^ 32)
    (htr : Syscall.ftruncate fd len 0
      ∈ h.since (LfsTesetLib.ctor raw path cfg openRes truncOk h).2) :
    (LfsTesetLib.ctor raw path cfg openRes truncOk h).1.bd_.fd
        ∈ (LfsTesetLib.ctor raw path cfg openRes truncOk h).2.fds
      ∧ (LfsTesetLib.ctor raw path cfg openRes truncOk h).1.cfg_.block_size = cfg.block_size
      ∧ (LfsTesetLib.ctor raw path cfg openRes truncOk h).1.cfg_.block_count = cfg.block_count
      ∧ ∃ f, (LfsTesetLib.ctor raw path cfg openRes truncOk h).2.file = some f
          ∧ f.length = cfg.block_size * cfg.block_count
          ∧ (f.length : Int) ≤ OFF_T_MAX := by
  rcases ctor_cases raw path cfg openRes truncOk h with hA | ⟨need, _, hB⟩ | ⟨_, hn, hC⟩
  · rw [hA] at htr
    simp [Host.since, Host.log] at htr
  · rw [hB] at htr
    simp [Host.since] at htr
  · have hprod : ((cfg.block_size : Int) * cfg.block_count) < 2 ^ 64 := by
      have h1 : cfg.block_size * cfg.block_count < 2 ^ 32 * 2 ^ 32 :=
        Nat.mul_lt_mul'' hbs hbc
      have h2 : ((cfg.block_size * cfg.block_count : Nat) : Int) < 2 ^ 64 := by
        exact_mod_cast h1
      push_cast at h2
      exact h2
    have hexact := to_off_t_exact_of_nonneg _
      (mul_nonneg (Int.ofNat_nonneg _) (Int.ofNat_nonneg _)) hprod hn
    have hcast : ((cfg.block_size : Int) * cfg.block_count)
        = ((cfg.block_size * cfg.block_count : Nat) : Int) := by push_cast; rfl
    have hnat : (to_off_t ((cfg.block_size : Int) * cfg.block_count)).toNat
        = cfg.block_size * cfg.block_count := by
      rw [hexact, hcast, Int.toNat_ofNat]
    have hbound : ((cfg.block_size * cfg.block_count : Nat) : Int) ≤ OFF_T_MAX := by
      have := to_off_t_lt ((cfg.block_size : Int) * cfg.block_count)
      rw [hexact, hcast] at this
      unfold OFF_T_MAX
      omega
    rw [hC]
    refine ⟨List.mem_cons_self _ _, rfl, rfl, _, rfl, ?_, ?_⟩
    · rw [hnat]
      simp only [List.length_append, List.length_take, List.length_replicate]
      omega
    · have hl : ((h.file.getD []).take (cfg.block_size * cfg.block_count)
          ++ List.replicate (cfg.block_size * cfg.block_count - (h.file.getD []).length)
              (0 : Byte)).length = cfg.block_size * cfg.block_count := by
        simp only [List.length_append, List.length_take, List.length_replicate]
        omega
      rw [hnat, hl]
      exact hbound

/-- For 32-bit `block_size` and `block_count` whose product does not fit `off_t`,
no `ftruncate` of the constructor succeeds. -/
theorem ctor_no_resize_above_off_t (raw : LfsTesetLib) (path : String) (cfg : lfs_config)
    (openRes : Int) (truncOk : Bool) (h : Host) (fd len : Int)
    (hbs : cfg.block_size < 2 ^ 32) (hbc : cfg.block_count < 2 ^ 32)
    (hbig : OFF_T_MAX < ((cfg.block_size * cfg.block_count : Nat) : Int)) :
    Syscall.ftruncate fd len 0
      ∉ h.since (LfsTesetLib.ctor raw path cfg openRes truncOk h).2 := by
  intro htr
  obtain ⟨-, -, -, f, -, hl, hm⟩ :=
    ctor_establishes_store raw path cfg openRes truncOk h fd len hbs hbc htr
  rw [hl] at hm
  omega

/-- Number of `close` calls on the descriptor `open` handed out, over
construction followed by destruction: none when `open` failed, one when
`open` and `ftruncate` both succeeded, two when `ftruncate` failed. -/
theorem ctor_dtor_close_count (raw : LfsTesetLib) (path : String) (cfg : lfs_config)
    (openRes : Int) (truncOk : Bool) (h : Host) :
    (∀ fd, closeCount fd (h.since
        ((LfsTesetLib.ctor raw path cfg openRes truncOk h).1.dtor
          (LfsTesetLib.ctor raw path cfg openRes truncOk h).2)) = 0)
    ∨ (∃ need, h.since (LfsTesetLib.ctor raw path cfg openRes truncOk h).2
          = [.open openRes, .ftruncate openRes need 0]
        ∧ closeCount openRes (h.since
            ((LfsTesetLib.ctor raw path cfg openRes truncOk h).1.dtor
              (LfsTesetLib.ctor raw path cfg openRes truncOk h).2)) = 1)
    ∨ (∃ need, h.since (LfsTesetLib.ctor raw path cfg openRes truncOk h).2
          = [.open openRes, .ftruncate openRes need (-1), .close openRes 0]
        ∧ closeCount openRes (h.since
            ((LfsTesetLib.ctor raw path cfg openRes truncOk h).1.dtor
              (LfsTesetLib.ctor raw path cfg openRes truncOk h).2)) = 2) := by
  rcases ctor_cases raw path cfg openRes truncOk h with hA | ⟨need, h0, hB⟩ | ⟨h0, _, hC⟩
  · left
    intro fd
    rw [hA]
    simp [LfsTesetLib.dtor, Host.since, Host.log, closeCount]
  · right; right
    refine ⟨need, ?_, ?_⟩
    · rw [hB]
      simp [Host.since]
    · rw [hB]
      by_cases hm : openRes ∈ h.fds <;>
        simp [LfsTesetLib.dtor, h0, sys_close, hm, Host.since, Host.log, closeCount]
  · right; left
    refine ⟨to_off_t ((cfg.block_size : Int) * cfg.block_count), ?_, ?_⟩
    · rw [hC]
      simp [Host.since]
    · rw [hC]
      simp [LfsTesetLib.dtor, h0, sys_close, Host.since, Host.log, closeCount]

/-- The bound `file_read` passes a non-negative engine result through and
turns a negative one `r` into `r + 2^64`. -/
theorem file_read_binding_result {σ : Type} (E : Engine σ) (file : Nat) (shape0 : Int) (s : σ)
    (r : Int) (s2 : σ) (hlo : -(2 ^ 31) ≤ r) (hhi : r < 2 ^ 31)
    (hr : E.lfs_file_read file (to_lfs_size_t (to_size_t shape0)) s = (r, s2)) :
    file_read_binding E file { ndim := 1, itemsize := 1, shape0 := shape0 } s
      = .ok ((if 0 ≤ r then r else r + 2 ^ 64).toNat, s2) := by
  have hconv : to_size_t r = (if 0 ≤ r then r else r + 2 ^ 64).toNat := by
    unfold to_size_t
    split_ifs <;> congr 1 <;> omega
  simp [file_read_binding, LfsTesetLib.file_read, hr, hconv]

/-! ## Claims about the session -/

/-- C4: for every prior state of the backing file (absent, empty, shorter or
longer than needed) and every `block_size` and `block_count`, a construction in
which `open` succeeds (the host hands out a fresh descriptor) and `ftruncate`
succeeds (the host allows the resize and the product fits `off_t`, beyond which
no resize can succeed) makes exactly the calls `open` and `ftruncate` with the
exact product as length, and leaves the backing file exactly
`block_size * block_count` bytes long; with `block_size = 512` and
`block_count = 256` that is 131072 bytes. -/
theorem ctor_file_size (raw : LfsTesetLib) (path : String) (cfg : lfs_config)
    (openRes : Int) (truncOk : Bool) (h : Host)
    (hopen : 0 ≤ openRes) (hfresh : openRes ∉ h.fds) (htrunc : truncOk = true)
    (hprod : ((cfg.block_size * cfg.block_count : Nat) : Int) ≤ OFF_T_MAX) :
    h.since (LfsTesetLib.ctor raw path cfg openRes truncOk h).2
        = [.open openRes,
           .ftruncate openRes ((cfg.block_size * cfg.block_count : Nat) : Int) 0]
      ∧ ∃ f, (LfsTesetLib.ctor raw path cfg openRes truncOk h).2.file = some f
          ∧ f.length = cfg.block_size * cfg.block_count
          ∧ (cfg.block_size = 512 → cfg.block_count = 256 → f.length = 131072) := by
  rw [ctor_success raw path cfg openRes truncOk h hopen hfresh htrunc hprod]
  have hl : ((h.file.getD []).take (cfg.block_size * cfg.block_count)
      ++ List.replicate (cfg.block_size * cfg.block_count - (h.file.getD []).length)
          (0 : Byte)).length = cfg.block_size * cfg.block_count := by
    simp only [List.length_append, List.length_take, List.length_replicate]
    omega
  refine ⟨?_, _, rfl, hl, ?_⟩
  · simp [Host.since]
  · intro h1 h2
    rw [hl, h1, h2]

/-- C5: `mount()` invokes format exactly when the first engine mount fails,
format at most once and engine mount once or twice, returns 0 exactly when the
last mount attempt succeeded and 1 only when the first attempt and the retry
both failed; when the first mount succeeds it is the only engine call. -/
theorem mount_auto_format_policy {σ : Type} (E : Engine σ) (self : LfsTesetLib) (s : σ) :
    (0 < formatCount (self.mount E s).2.2 ↔ (E.lfs_mount self.cfg_ s).1 ≠ 0)
      ∧ formatCount (self.mount E s).2.2 ≤ 1
      ∧ 1 ≤ mountCount (self.mount E s).2.2
      ∧ mountCount (self.mount E s).2.2 ≤ 2
      ∧ ((self.mount E s).1 = 0 ↔ lastMount (self.mount E s).2.2 = some 0)
      ∧ ((self.mount E s).1 ≠ 0 →
          (self.mount E s).1 = 1
            ∧ (E.lfs_mount self.cfg_ s).1 ≠ 0
            ∧ (E.lfs_mount self.cfg_
                (E.lfs_format self.cfg_ (E.lfs_mount self.cfg_ s).2).2).1 ≠ 0)
      ∧ ((E.lfs_mount self.cfg_ s).1 = 0 →
          (self.mount E s) = (0, (E.lfs_mount self.cfg_ s).2, [.mount 0]))
      ∧ ((E.lfs_mount self.cfg_ s).1 ≠ 0 →
          (self.mount E s).2.2
            = [.mount (E.lfs_mount self.cfg_ s).1,
               .format (E.lfs_format self.cfg_ (E.lfs_mount self.cfg_ s).2).1,
               .mount (E.lfs_mount self.cfg_
                  (E.lfs_format self.cfg_ (E.lfs_mount self.cfg_ s).2).2).1]) := by
  unfold LfsTesetLib.mount
  by_cases h1 : (E.lfs_mount self.cfg_ s).1 = 0
  · simp [h1, formatCount, mountCount, lastMount]
  · by_cases h2 : (E.lfs_mount self.cfg_
        (E.lfs_format self.cfg_ (E.lfs_mount self.cfg_ s).2).2).1 = 0
    · simp [h1, h2, formatCount, mountCount, lastMount]
    · simp [h1, h2, formatCount, mountCount, lastMount]

/-- C6: when `open` succeeds (descriptor 3) and `ftruncate` fails, construction
followed by destruction calls `close` on descriptor 3 twice: once in the
constructor's failure path and once more in the destructor. -/
theorem ctor_dtor_closes_twice :
    closeCount 3
        (freshHost.since
          ((LfsTesetLib.ctor rawSession "flash.img" scenarioCfg 3 false freshHost).1.dtor
            (LfsTesetLib.ctor rawSession "flash.img" scenarioCfg 3 false freshHost).2)) = 2
      ∧ freshHost.since
          ((LfsTesetLib.ctor rawSession "flash.img" scenarioCfg 3 false freshHost).1.dtor
            (LfsTesetLib.ctor rawSession "flash.img" scenarioCfg 3 false freshHost).2)
        = [.open 3, .ftruncate 3 131072 (-1), .close 3 0, .close 3 (-1)] := by
  decide

/-- C7 as stated fails: with `cache_size = 64` supplied and `prog_size = 16`,
the geometry stored by a successful construction has `cache_size = 32`. -/
theorem ctor_ignores_supplied_cache_size :
    scenarioCfg.cache_size ≠ 0
      ∧ (LfsTesetLib.ctor rawSession "flash.img" scenarioCfg 3 true freshHost).1.cfg_.cache_size
          ≠ scenarioCfg.cache_size
      ∧ (LfsTesetLib.ctor rawSession "flash.img" scenarioCfg 3 true freshHost).1.cfg_.cache_size
          = 32 := by
  decide

/-- C7 amended: in every construction in which `open` succeeds, the geometry's
`cache_size` is `2 * prog_size` reduced modulo `2^32`, whatever `cache_size` the
caller supplied. -/
theorem ctor_cache_size_derived (raw : LfsTesetLib) (path : String) (cfg : lfs_config)
    (openRes : Int) (truncOk : Bool) (h : Host) (fd : Int)
    (hopen : Syscall.open fd ∈ h.since (LfsTesetLib.ctor raw path cfg openRes truncOk h).2)
    (hfd : 0 ≤ fd) :
    (LfsTesetLib.ctor raw path cfg openRes truncOk h).1.cfg_.cache_size
      = (2 * cfg.prog_size) % 2 ^ 32 := by
  rcases ctor_cases raw path cfg openRes truncOk h with hA | ⟨need, _, hB⟩ | ⟨_, _, hC⟩
  · rw [hA] at hopen
    simp [Host.since, Host.log] at hopen
    omega
  · rw [hB]
    rfl
  · rw [hC]
    rfl

/-- C8: when the engine's read returns the error code `-5`, the wrapper
`LfsTesetLib::file_read` returns `-5` but the bound `file_read` returns the
byte count 18446744073709551611. -/
theorem file_read_binding_loses_error_code :
    (LfsTesetLib.file_read failingReadEngine 0 16 ()).1 = -5
      ∧ file_read_binding failingReadEngine 0 { ndim := 1, itemsize := 1, shape0 := 16 } ()
          = .ok (18446744073709551611, ())
      ∧ ((18446744073709551611 : Nat) : Int) ≠ -5 := by
  refine ⟨by decide, by rfl, by decide⟩

/-! ## Instances of the conditional theorems -/

/-- Instance of C1: block 1 of a two-block device, two bytes at offset 1. -/
theorem prog_read_round_trip_witness :
    ∃ h1 h2 h3, lfs_filebd_erase demoCfg demoBd 1 demoHost = some (LFS_ERR_OK, h1)
      ∧ lfs_filebd_prog demoCfg demoBd 1 1 [9, 10] 2 h1 = (LFS_ERR_OK, h2)
      ∧ lfs_filebd_read demoCfg demoBd 1 1 2 h2 = (LFS_ERR_OK, [9, 10], h3) :=
  prog_read_round_trip demoCfg demoBd demoHost [1, 2, 3, 4, 5, 6, 7, 8] 1 1 2 [9, 10]
    rfl (by decide) (by decide) (by decide) (by decide) rfl (by decide) (by decide)

/-- Instance of C2: a 520-byte block, erased in a chunk of 512 and one of 8. -/
theorem erase_then_read_all_ff_witness :
    ∃ h1 f1, lfs_filebd_erase wideCfg demoBd 0 wideHost = some (LFS_ERR_OK, h1)
      ∧ h1.file = some f1
      ∧ (f1.drop (0 * wideCfg.block_size)).take wideCfg.block_size
          = List.replicate wideCfg.block_size 0xFF
      ∧ (wideCfg.block_size ≤ MAX_RW_COUNT →
          ∃ h2, lfs_filebd_read wideCfg demoBd 0 0 wideCfg.block_size h1
            = (LFS_ERR_OK, List.replicate wideCfg.block_size 0xFF, h2))
      ∧ (MAX_RW_COUNT < wideCfg.block_size →
          (lfs_filebd_read wideCfg demoBd 0 0 wideCfg.block_size h1).1 = LFS_ERR_IO)
      ∧ (List.replicate wideCfg.block_size (0xFF : Byte)).length = wideCfg.block_size
      ∧ ∀ x ∈ List.replicate wideCfg.block_size (0xFF : Byte), x = 0xFF :=
  erase_then_read_all_ff wideCfg demoBd wideHost (List.replicate 520 0) 0
    rfl (by decide) (by rw [List.length_replicate]; rfl)
    (by rw [List.length_replicate]; decide) (by decide)

/-- Instance of C3: two bytes at offset 1 of block 1, file bytes 5 and 6. -/
theorem read_offset_linear_witness :
    ∃ buf h2, lfs_filebd_read demoCfg demoBd 1 1 2 demoHost = (LFS_ERR_OK, buf, h2)
      ∧ buf = ([1, 2, 3, 4, 5, 6, 7, 8].drop (1 * demoCfg.block_size + 1)).take 2
      ∧ buf.length = 2
      ∧ (∀ i, i < 2 → buf[i]? = [1, 2, 3, 4, 5, 6, 7, 8][1 * demoCfg.block_size + 1 + i]?)
      ∧ demoHost.since h2
          = [.pread demoBd.fd 2 ((1 * demoCfg.block_size + 1 : Nat) : Int) 2] :=
  read_offset_linear demoCfg demoBd demoHost [1, 2, 3, 4, 5, 6, 7, 8] 1 1 2
    rfl (by decide) (by decide) (by decide) (by decide)

/-- Instances of C4 with the 512 × 256 geometry on each kind of prior file:
absent, empty, shorter (100 bytes) and longer (200000 bytes); every one ends
with exactly 131072 bytes. -/
theorem ctor_file_size_witness :
    (∃ f, (LfsTesetLib.ctor rawSession "flash.img" scenarioCfg 3 true
          (priorHost none)).2.file = some f ∧ f.length = 131072)
      ∧ (∃ f, (LfsTesetLib.ctor rawSession "flash.img" scenarioCfg 3 true
          (priorHost (some []))).2.file = some f ∧ f.length = 131072)
      ∧ (∃ f, (LfsTesetLib.ctor rawSession "flash.img" scenarioCfg 3 true
          (priorHost (some (List.replicate 100 7)))).2.file = some f ∧ f.length = 131072)
      ∧ (∃ f, (LfsTesetLib.ctor rawSession "flash.img" scenarioCfg 3 true
          (priorHost (some (List.replicate 200000 7)))).2.file = some f
            ∧ f.length = 131072) :=
  ⟨(ctor_file_size rawSession "flash.img" scenarioCfg 3 true (priorHost none)
      (by decide) (by decide) rfl (by decide)).2.imp
      (fun _ hf => ⟨hf.1, hf.2.2 rfl rfl⟩),
   (ctor_file_size rawSession "flash.img" scenarioCfg 3 true (priorHost (some []))
      (by decide) (by decide) rfl (by decide)).2.imp
      (fun _ hf => ⟨hf.1, hf.2.2 rfl rfl⟩),
   (ctor_file_size rawSession "flash.img" scenarioCfg 3 true
      (priorHost (some (List.replicate 100 7)))
      (by decide) (by decide) rfl (by decide)).2.imp
      (fun _ hf => ⟨hf.1, hf.2.2 rfl rfl⟩),
   (ctor_file_size rawSession "flash.img" scenarioCfg 3 true
      (priorHost (some (List.replicate 200000 7)))
      (by decide) (by decide) rfl (by decide)).2.imp
      (fun _ hf => ⟨hf.1, hf.2.2 rfl rfl⟩)⟩

/-- Instance of C7 amended: `cache_size = 64` supplied, `2 * 16` stored. -/
theorem ctor_cache_size_derived_witness :
    (LfsTesetLib.ctor rawSession "flash.img" scenarioCfg 3 true freshHost).1.cfg_.cache_size
      = (2 * scenarioCfg.prog_size) % 2 ^ 32 :=
  ctor_cache_size_derived rawSession "flash.img" scenarioCfg 3 true freshHost 3
    (by decide) (by decide)

/-- Instance of C9: erase, prog, read and sync on a two-block device. -/
theorem size_invariant_witness :
    ∃ h2 f2, runOps demoCfg demoBd demoHost
        [.erase 1, .prog 1 1 [9, 10] 2, .read 0 0 4, .sync] = some h2
      ∧ h2.file = some f2 ∧ f2.length = demoCfg.block_size * demoCfg.block_count :=
  size_invariant demoCfg demoBd [.erase 1, .prog 1 1 [9, 10] 2, .read 0 0 4, .sync]
    demoHost [1, 2, 3, 4, 5, 6, 7, 8] rfl (by decide) (by decide) (by decide)

/-- Instance of C10: erasing block 1 of a two-block device of 4-byte blocks. -/
theorem erase_touches_only_its_block_witness :
    ChunkedFrom demoBd.fd ((1 * demoCfg.block_size : Nat) : Int)
        (demoHost.since
          { file := some [1, 2, 3, 4, 255, 255, 255, 255], fds := [3],
            trace := [.pwrite 3 4 4 4] })
      ∧ bytesRequested (demoHost.since
          { file := some [1, 2, 3, 4, 255, 255, 255, 255], fds := [3],
            trace := [.pwrite 3 4 4 4] }) = demoCfg.block_size
      ∧ ∃ f1, (some [1, 2, 3, 4, 255, 255, 255, 255] : Option (List Byte)) = some f1
          ∧ f1.length = [1, 2, 3, 4, 5, 6, 7, 8].length
          ∧ ∀ i, (i < 1 * demoCfg.block_size ∨ (1 + 1) * demoCfg.block_size ≤ i) →
              f1[i]? = ([1, 2, 3, 4, 5, 6, 7, 8] : List Byte)[i]? :=
  erase_touches_only_its_block demoCfg demoBd demoHost
    { file := some [1, 2, 3, 4, 255, 255, 255, 255], fds := [3], trace := [.pwrite 3 4 4 4] }
    [1, 2, 3, 4, 5, 6, 7, 8] 1 rfl (by decide) (by decide) (by decide) (by decide)

end LfsFilebd
